import Mathlib

/-!
# Verification of cargo-ledger's build/encode core

A shallow embedding of `cargo-ledger` (Ledger device build and load tool).

* `build_app` (from `src/main.rs`): the manifest-producing orchestration,
  embedded as a pure function over its resolved inputs, with the external
  calls (`export_binary`, `retrieve_infos`) recorded in the result and the
  `unwrap` panic points surfaced as `Option`.
* The Hex Encoder and ELF Inspector live in the crate's `utils` module,
  whose source is not part of the inspected tree; they are modelled from
  the specification (each such definition is marked `Modelled from the
  spec:`).
-/

namespace CargoLedger

/-! ## Intel HEX records (Hex Encoder data model) -/

/-- Modelled from the spec: one line of Intel HEX output. Attributes: byte
count, 16-bit address, record type (0x00 data, 0x01 end-of-file, 0x04
extended linear address), payload bytes, checksum byte. -/
structure HexRecord where
  count : Nat
  addr : Nat
  rtype : Nat
  payload : List Nat
  checksum : Nat
  deriving Repr, DecidableEq

/-- Modelled from the spec: build a record whose checksum is the two's
complement of the sum of all preceding fields, truncated to one byte. -/
def mkRecord (rtype : Nat) (addr : Nat) (payload : List Nat) : HexRecord :=
  let s := payload.length + addr / 256 + addr % 256 + rtype + payload.sum
  { count := payload.length
    addr := addr
    rtype := rtype
    payload := payload
    checksum := (256 - s % 256) % 256 }

/-- Sum of every byte of a record, excluding the start marker: byte count,
address-high byte, address-low byte, record type, payload bytes, checksum. -/
def recordSum (r : HexRecord) : Nat :=
  r.count + r.addr / 256 + r.addr % 256 + r.rtype + r.payload.sum + r.checksum

/-- The end-of-file record: type 0x01, byte count 0, address 0x0000, no
payload (serialized `:00000001FF`). -/
def eofRecord : HexRecord := mkRecord 1 0 []

/-! ## Loadable segments and the encoder -/

/-- Modelled from the spec: a Loadable Segment view of an ELF Image — a
program header entry with its load flag and the byte range actually present
in the file (file size, not memory size). -/
structure Segment where
  vaddr : Nat
  data : List Nat
  load : Bool
  deriving Repr, DecidableEq

/-- Modelled from the spec: the configurable maximum record payload length
(a tunable constant, commonly 16 or 32; safe default 16). -/
def chunkSize : Nat := 16

/-- Modelled from the spec: split a segment's byte content into fixed-size
chunks of at most `chunkSize` bytes, each paired with its absolute starting
address; the last chunk may be shorter. -/
def splitChunks (a : Nat) (bs : List Nat) : List (Nat × List Nat) :=
  if bs = [] then []
  else (a, bs.take chunkSize) :: splitChunks (a + chunkSize) (bs.drop chunkSize)
termination_by bs.length
decreasing_by
  rename_i h
  simp only [List.length_drop, chunkSize]
  have : bs.length ≠ 0 := fun h0 => h (List.length_eq_zero.mp h0)
  omega

/-- Modelled from the spec: emit the records for a list of chunks, threading
the "current upper 16 bits of address" state. Before a data record whose
target address's upper 16 bits differ from the current state, an Extended
Linear Address record (type 0x04) carrying the new upper 16 bits is emitted
and the state updated. The sentinel "unset" initial state is realised as
upper-16 = 0, consistent with the spec's edge case that a segment entirely
below 64KB never triggers an extended-address record. -/
def emitAll (st : Nat) : List (Nat × List Nat) → List HexRecord
  | [] => []
  | c :: cs =>
    let hi := c.1 / 65536
    if hi = st then
      mkRecord 0 (c.1 % 65536) c.2 :: emitAll st cs
    else
      mkRecord 4 0 [hi / 256, hi % 256] :: mkRecord 0 (c.1 % 65536) c.2 :: emitAll hi cs

/-- Modelled from the spec: select the Loadable Segments (program headers
flagged for loading), skipping segments with zero file size. -/
def selectSegs (segs : List Segment) : List Segment :=
  segs.filter (fun s => s.load && !s.data.isEmpty)

/-- All chunks of the selected segments, in processing order. -/
def chunksOf (segs : List Segment) : List (Nat × List Nat) :=
  ((selectSegs segs).map (fun s => splitChunks s.vaddr s.data)).flatten

/-- Modelled from the spec: the Hex Encoder (`export_binary`'s record
stream). Selects the loadable segments, chunks them, emits extended-address
and data records, and terminates with exactly one end-of-file record. -/
def encode (segs : List Segment) : List HexRecord :=
  emitAll 0 (chunksOf segs) ++ [eofRecord]

/-! ## A reference decoder for Intel HEX record streams -/

/-- The byte content `bs` placed at consecutive addresses starting at `a`,
as a list of (address, byte) pairs. -/
def posBytes : Nat → List Nat → List (Nat × Nat)
  | _, [] => []
  | a, b :: bs => (a, b) :: posBytes (a + 1) bs

/-- The upper-16-bits value carried by an extended-linear-address record's
two-byte big-endian payload. -/
def elaValue (p : List Nat) : Nat :=
  match p with
  | [h, l] => h * 256 + l
  | _ => 0

/-- Reconstruct a byte-addressed memory image from a record stream: data
records (type 0x00) place their payload at the absolute address formed from
the current upper 16 bits and the record's own 16-bit address field;
extended-linear-address records (type 0x04) replace the upper 16 bits;
other records place nothing. -/
def decodeRecords : Nat → List HexRecord → List (Nat × Nat)
  | _, [] => []
  | up, r :: rs =>
    if r.rtype = 0 then
      posBytes (up * 65536 + r.addr) r.payload ++ decodeRecords up rs
    else if r.rtype = 4 then
      decodeRecords (elaValue r.payload) rs
    else
      decodeRecords up rs

/-- The number of extended-linear-address records (type 0x04) in a record
stream. -/
def countEla (recs : List HexRecord) : Nat :=
  (recs.filter (fun r => r.rtype == 4)).length

/-- The number of state changes along a sequence of upper-16-bits values,
starting from the state `st`: each element differing from the state before
it counts once and becomes the new state. -/
def changes : Nat → List Nat → Nat
  | _, [] => 0
  | st, x :: xs => (if x = st then 0 else 1) + changes x xs

/-- The upper 16 address bits of each chunk's starting address. -/
def chunkUppers (cs : List (Nat × List Nat)) : List Nat :=
  cs.map (fun c => c.1 / 65536)

/-! ## ELF Inspector (`retrieve_infos`) -/

/-- Modelled from the spec: a program header entry of an ELF Image (virtual
address, file offset, file size, memory size, load flag). -/
structure ProgramHeader where
  vaddr : Nat
  offset : Nat
  filesz : Nat
  memsz : Nat
  load : Bool
  deriving Repr, DecidableEq

/-- Modelled from the spec: a section header of an ELF Image. -/
structure SectionHeader where
  sname : String
  addr : Nat
  size : Nat
  stype : Nat
  deriving Repr, DecidableEq

/-- Modelled from the spec: a symbol table entry `{value, size, section index}`. -/
structure Symbol where
  value : Nat
  size : Nat
  shndx : Nat
  deriving Repr, DecidableEq

/-- Modelled from the spec: an immutable, parsed view of an ELF executable:
entry point, program headers, section headers, and a symbol table mapping
symbol names to entries. -/
structure ElfImage where
  entry : Nat
  progHeaders : List ProgramHeader
  sections : List SectionHeader
  symtab : List (String × Symbol)
  deriving Repr, DecidableEq

/-- Modelled from the spec: the Inspector's error taxonomy (`NotAnElf`,
`MissingSymbol(name)`, `TruncatedFile`). -/
inductive ParseError where
  | NotAnElf : ParseError
  | MissingSymbol : String → ParseError
  | TruncatedFile : ParseError
  deriving Repr, DecidableEq

/-- Modelled from the spec: the Inspector's result `{size, api_level}`
(Memory Footprint Info). -/
structure Infos where
  size : Nat
  api_level : Nat
  deriving Repr, DecidableEq

/-- Modelled from the spec: exact, case-sensitive name lookup in the symbol
table. -/
def lookupSym (tab : List (String × Symbol)) (name : String) : Option Symbol :=
  (tab.find? (fun e => e.1 == name)).map (fun e => e.2)

/-- Modelled from the spec: the designated "data region start" boundary
symbol name (versioned constant of the toolchain contract). -/
def dataStartSymbol : String := "_nvram_data"

/-- Modelled from the spec: the designated "data region end" boundary symbol
name (versioned constant of the toolchain contract). -/
def dataEndSymbol : String := "_envram_data"

/-- Modelled from the spec: the distinguished symbol whose resolved value
directly encodes the API compatibility level. -/
def apiLevelSymbol : String := "API_LEVEL"

/-- Modelled from the spec: `retrieve_infos` — the statically reserved data
footprint is the difference between the "data region end" symbol's value and
the "data region start" symbol's value, both resolved by exact name lookup;
the API level is a distinguished symbol's directly-encoded value. A missing
symbol is a hard error (`MissingSymbol`), never a silent default. -/
def retrieve_infos (img : ElfImage) : Except ParseError Infos :=
  match lookupSym img.symtab dataStartSymbol with
  | none => .error (.MissingSymbol dataStartSymbol)
  | some s =>
    match lookupSym img.symtab dataEndSymbol with
    | none => .error (.MissingSymbol dataEndSymbol)
    | some e =>
      match lookupSym img.symtab apiLevelSymbol with
      | none => .error (.MissingSymbol apiLevelSymbol)
      | some a => .ok { size := e.value - s.value, api_level := a.value }

/-! ## `build_app` (from `src/main.rs`) -/

/-- The device targets of the `Device` enum in `main.rs`. -/
inductive Device where
  | Nanos : Device
  | Nanox : Device
  | Nanosplus : Device
  deriving Repr, DecidableEq

/-- The `package.metadata.nanos` section deserialized by `main.rs`
(`NanosMetadata`). -/
structure NanosMetadata where
  curve : List String
  path : List String
  flags : String
  icon : String
  icon_small : String
  name : Option String
  deriving Repr, DecidableEq

/-- The value of one hexadecimal digit character, as accepted by Rust's
`from_str_radix(_, 16)`. -/
def hexDigitVal (c : Char) : Option Nat :=
  if '0' ≤ c ∧ c ≤ '9' then some (c.toNat - '0'.toNat)
  else if 'a' ≤ c ∧ c ≤ 'f' then some (c.toNat - 'a'.toNat + 10)
  else if 'A' ≤ c ∧ c ≤ 'F' then some (c.toNat - 'A'.toNat + 10)
  else none

/-- Rust's `u32::from_str_radix(s, 16)`: optional leading `+`, then one or
more hex digits; fails on an empty digit string, an invalid digit, or
overflow past `u32::MAX`. -/
def parseHexU32 (s : String) : Option Nat :=
  let cs := match s.data with
    | '+' :: rest => rest
    | cs => cs
  if cs.isEmpty then none
  else do
    let v ← cs.foldlM (fun acc c => (hexDigitVal c).map (fun d => acc * 16 + d)) 0
    if v < 4294967296 then some v else none

/-- The lowercase hexadecimal digit character for a value below 16. -/
def hexDigitChar (n : Nat) : Char :=
  if n < 10 then Char.ofNat (48 + n) else Char.ofNat (97 + n - 10)

/-- Accumulator loop of `toHexLower`. -/
def toHexAux (n : Nat) (acc : List Char) : List Char :=
  if n = 0 then acc else toHexAux (n / 16) (hexDigitChar (n % 16) :: acc)
termination_by n
decreasing_by
  rename_i h
  exact Nat.div_lt_self (Nat.pos_of_ne_zero h) (by omega)

/-- Rust's `format!("{:x}", n)`: lowercase hexadecimal rendering of `n`
without a `0x` prefix, `"0"` for zero. -/
def toHexLower (n : Nat) : String :=
  if n = 0 then "0" else String.mk (toHexAux n [])

/-- `Path::parent` on a path given as its list of components: `None` for an
empty path, otherwise the path with the last component removed. -/
def parent? : List String → Option (List String)
  | [] => none
  | xs => some xs.dropLast

/-- `Path::strip_prefix` on paths given as component lists: the suffix after
`pre` when `pre` is a prefix, an error (`none`) otherwise. -/
def stripPrefix? (pre xs : List String) : Option (List String) :=
  if pre.isPrefixOf xs then some (xs.drop pre.length) else none

/-- The JSON manifest that `build_app` writes to `app_<device>.json`: the
fields of the `json!` literal in `main.rs`, with `apiLevel` optional since
it is skipped for Nano S. -/
structure Manifest where
  mname : String
  version : String
  icon : String
  targetId : String
  flags : String
  curves : List String
  paths : List String
  binary : List String
  dataSize : Nat
  apiLevel : Option String
  deriving Repr, DecidableEq

/-- The observable outcome of one successful `build_app` run: the arguments
of the `export_binary` and `retrieve_infos` calls, and the manifest. -/
structure BuildResult where
  export_elf_arg : List String
  export_hex_arg : List String
  retrieve_arg : List String
  manifest : Manifest
  deriving Repr, DecidableEq

/-- The manifest value assembled by `build_app` (lines 195–233 of
`main.rs`): flags modified to enable BLE when targetting Nano X, target id
and icon picked by device, `apiLevel` skipped for Nano S. -/
def mkManifest (device : Device) (meta : NanosMetadata) (pkgName pkgVersion : String)
    (hex_file : List String) (infos : Infos) : Manifest :=
  let flags := match device with
    | .Nanos | .Nanosplus => meta.flags
    | .Nanox => "0x" ++ toHexLower (((parseHexU32 meta.flags).getD 0) ||| 512)
  let targetIcon : String × String := match device with
    | .Nanos => ("0x31100004", meta.icon)
    | .Nanox => ("0x33000004", meta.icon_small)
    | .Nanosplus => ("0x33100004", meta.icon_small)
  let apiLevel : Option String := match device with
    | .Nanos => none
    | _ => some (toString infos.api_level)
  { mname := meta.name.getD pkgName
    version := pkgVersion
    icon := targetIcon.2
    targetId := targetIcon.1
    flags := flags
    curves := meta.curve
    paths := meta.path
    binary := hex_file
    dataSize := infos.size
    apiLevel := apiLevel }

/-- Shallow embedding of `build_app` from `main.rs`, as a pure function of
its resolved inputs: the device, the executable path (the prebuilt path or
the cargo-build artifact), the `--hex-next-to-json` flag, the package root
directory (parent of `Cargo.toml`), the `package.metadata.nanos` section,
the package name and version, and the Inspector `retrieve` (the `utils`
module's `retrieve_infos`, external to `main.rs`). The `.unwrap()` panic
points (`exe_path.parent()`, `strip_prefix`, `retrieve_infos`) surface as
`none`. -/
def build_app (device : Device) (exe_path : List String) (hex_next_to_json : Bool)
    (current_dir : List String) (meta : NanosMetadata) (pkgName pkgVersion : String)
    (retrieve : List String → Except ParseError Infos) : Option BuildResult :=
  (if hex_next_to_json then some current_dir else parent? exe_path).bind (fun hexDir =>
    (stripPrefix? current_dir (hexDir ++ ["app.hex"])).bind (fun hex_file =>
      (retrieve exe_path).toOption.map (fun infos =>
        { export_elf_arg := exe_path
          export_hex_arg := hexDir ++ ["app.hex"]
          retrieve_arg := exe_path
          manifest := mkManifest device meta pkgName pkgVersion hex_file infos })))

/-! ## Helper lemmas about the encoder -/

/-- Every record built by `mkRecord` satisfies the checksum law. -/
theorem recordSum_mkRecord (t a : Nat) (p : List Nat) :
    recordSum (mkRecord t a p) % 256 = 0 := by
  simp only [recordSum, mkRecord]
  omega

/-- Every record emitted by `emitAll` satisfies the checksum law. -/
theorem recordSum_emitAll (cs : List (Nat × List Nat)) :
    ∀ st, ∀ r ∈ emitAll st cs, recordSum r % 256 = 0 := by
  induction cs with
  | nil => intro st r h; simp [emitAll] at h
  | cons c cs ih =>
    intro st r h
    simp only [emitAll] at h
    split at h
    · rcases List.mem_cons.mp h with h | h
      · exact h ▸ recordSum_mkRecord _ _ _
      · exact ih st r h
    · rcases List.mem_cons.mp h with h | h
      · exact h ▸ recordSum_mkRecord _ _ _
      · rcases List.mem_cons.mp h with h | h
        · exact h ▸ recordSum_mkRecord _ _ _
        · exact ih _ r h

/-- `emitAll` only emits data (0x00) and extended-linear-address (0x04)
records, never an end-of-file record. -/
theorem rtype_emitAll (cs : List (Nat × List Nat)) :
    ∀ st, ∀ r ∈ emitAll st cs, r.rtype = 0 ∨ r.rtype = 4 := by
  induction cs with
  | nil => intro st r h; simp [emitAll] at h
  | cons c cs ih =>
    intro st r h
    simp only [emitAll] at h
    split at h
    · rcases List.mem_cons.mp h with h | h
      · exact Or.inl (h ▸ rfl)
      · exact ih st r h
    · rcases List.mem_cons.mp h with h | h
      · exact Or.inr (h ▸ rfl)
      · rcases List.mem_cons.mp h with h | h
        · exact Or.inl (h ▸ rfl)
        · exact ih _ r h

/-! ## Claims about the Hex Encoder's record stream -/

/-- C2: for every emitted Hex Record, the sum of (byte count + address-high
byte + address-low byte + record type + all payload bytes + checksum byte)
is congruent to 0 modulo 256. -/
theorem checksum_law (segs : List Segment) (r : HexRecord) (h : r ∈ encode segs) :
    (r.count + r.addr / 256 + r.addr % 256 + r.rtype + r.payload.sum + r.checksum) % 256
      = 0 := by
  have : recordSum r % 256 = 0 := by
    rcases List.mem_append.mp h with h | h
    · exact recordSum_emitAll _ 0 r h
    · have : r = eofRecord := List.mem_singleton.mp h
      subst this
      decide
  simpa [recordSum] using this

/-- Witness for C2: the end-of-file record of the empty encoding satisfies
the checksum law. -/
theorem checksum_law_witness :
    eofRecord ∈ encode [] ∧
    (eofRecord.count + eofRecord.addr / 256 + eofRecord.addr % 256 + eofRecord.rtype +
      eofRecord.payload.sum + eofRecord.checksum) % 256 = 0 :=
  ⟨by decide, checksum_law [] eofRecord (by decide)⟩

/-- C3: for every input, the encoder's output contains exactly one
end-of-file record (type 0x01, byte count 0, address 0x0000, no payload),
and that record is the last line of the output. -/
theorem eof_unique_and_last (segs : List Segment) :
    ((encode segs).filter (fun r => r.rtype == 1)).length = 1 ∧
    (encode segs).getLast? = some eofRecord ∧
    eofRecord.rtype = 1 ∧ eofRecord.count = 0 ∧ eofRecord.addr = 0 ∧
    eofRecord.payload = [] := by
  refine ⟨?_, ?_, rfl, rfl, rfl, rfl⟩
  · have hnil : (emitAll 0 (chunksOf segs)).filter (fun r => r.rtype == 1) = [] := by
      refine List.filter_eq_nil_iff.mpr (fun r hr => ?_)
      rcases rtype_emitAll _ 0 r hr with h | h <;> simp [h]
    simp [encode, List.filter_append, hnil, eofRecord, mkRecord]
  · exact List.getLast?_concat _

/-- C8: an input whose segments contain none flagged for loading (or only
segments of zero file size, which are skipped) encodes to a record stream
consisting solely of the single end-of-file record. -/
theorem no_loadable_only_eof (segs : List Segment)
    (h : ∀ s ∈ segs, s.load = false ∨ s.data = []) :
    encode segs = [eofRecord] := by
  have hsel : selectSegs segs = [] := by
    refine List.filter_eq_nil_iff.mpr (fun s hs => ?_)
    rcases h s hs with h1 | h1 <;> simp [h1]
  simp [encode, chunksOf, hsel, emitAll]

/-- Witness for C8: a list with one zero-file-size loadable segment and one
segment not flagged for loading encodes to just the end-of-file record. -/
theorem no_loadable_only_eof_witness :
    (∀ s ∈ [(⟨5, [], true⟩ : Segment), ⟨0, [1, 2], false⟩],
      s.load = false ∨ s.data = []) ∧
    encode [(⟨5, [], true⟩ : Segment), ⟨0, [1, 2], false⟩] = [eofRecord] :=
  ⟨by decide, no_loadable_only_eof _ (by decide)⟩

/-! ## Round-trip helper lemmas -/

/-- `posBytes` distributes over append, shifting the second start address by
the length of the first part. -/
theorem posBytes_append (xs ys : List Nat) :
    ∀ a, posBytes a (xs ++ ys) = posBytes a xs ++ posBytes (a + xs.length) ys := by
  induction xs with
  | nil => intro a; simp [posBytes]
  | cons x xs ih =>
    intro a
    have h1 : a + 1 + xs.length = a + (xs.length + 1) := by omega
    simp only [List.cons_append, posBytes, List.length_cons, List.append_eq]
    rw [ih (a + 1), h1]

/-- Unfolding equation for `splitChunks` on the empty byte list. -/
theorem splitChunks_nil (a : Nat) : splitChunks a [] = [] := by
  rw [splitChunks]
  simp

/-- Unfolding equation for `splitChunks` on a non-empty byte list. -/
theorem splitChunks_cons (a : Nat) (bs : List Nat) (h : bs ≠ []) :
    splitChunks a bs =
      (a, bs.take chunkSize) :: splitChunks (a + chunkSize) (bs.drop chunkSize) := by
  rw [splitChunks]
  simp [h]

/-- Flattening the positioned payloads of a segment's chunks recovers the
positioned bytes of the whole segment. -/
theorem flatten_chunks (a : Nat) (bs : List Nat) :
    ((splitChunks a bs).map (fun c => posBytes c.1 c.2)).flatten = posBytes a bs := by
  induction a, bs using splitChunks.induct with
  | case1 a => simp [splitChunks, posBytes]
  | case2 a bs hbs ih =>
    rw [splitChunks_cons a bs hbs]
    simp only [List.map_cons, List.flatten_cons, ih]
    by_cases hd : bs.drop chunkSize = []
    · have hbs' : bs.take chunkSize = bs :=
        List.take_of_length_le (by
          have := List.drop_eq_nil_iff.mp hd
          omega)
      rw [hd, hbs']
      simp [posBytes]
    · have hlen : (bs.take chunkSize).length = chunkSize := by
        have : ¬ bs.length ≤ chunkSize := fun hle =>
          hd (List.drop_eq_nil_iff.mpr hle)
        simp only [List.length_take]
        omega
      conv_rhs => rw [← List.take_append_drop chunkSize bs]
      rw [posBytes_append, hlen]

/-- Every chunk produced by `splitChunks` starts inside the segment's
address range. -/
theorem chunk_start_bound (a : Nat) (bs : List Nat) :
    ∀ c ∈ splitChunks a bs, a ≤ c.1 ∧ c.1 < a + bs.length := by
  induction a, bs using splitChunks.induct with
  | case1 a => simp [splitChunks]
  | case2 a bs hbs ih =>
    intro c hc
    rw [splitChunks_cons a bs hbs] at hc
    rcases List.mem_cons.mp hc with hc | hc
    · subst hc
      have : bs.length ≠ 0 := fun h0 => hbs (List.length_eq_zero.mp h0)
      simp only
      omega
    · have := ih c hc
      have hdl : (bs.drop chunkSize).length = bs.length - chunkSize :=
        List.length_drop _ _
      have : bs.length ≠ 0 := fun h0 => hbs (List.length_eq_zero.mp h0)
      simp only [chunkSize] at *
      omega

/-- Decoding the records emitted for a chunk list (from a matching upper-16
state, followed by the end-of-file record) recovers the positioned payloads
of all chunks, provided all chunk addresses fit in 32 bits. -/
theorem decode_emitAll (cs : List (Nat × List Nat)) :
    ∀ st, (∀ c ∈ cs, c.1 < 4294967296) →
      decodeRecords st (emitAll st cs ++ [eofRecord]) =
        (cs.map (fun c => posBytes c.1 c.2)).flatten := by
  induction cs with
  | nil => intro st _; simp [emitAll, decodeRecords, eofRecord, mkRecord]
  | cons c cs ih =>
    intro st hlt
    have hc : c.1 < 4294967296 := hlt c (List.mem_cons_self _ _)
    have htail : ∀ x ∈ cs, x.1 < 4294967296 :=
      fun x hx => hlt x (List.mem_cons_of_mem _ hx)
    simp only [emitAll]
    split
    · rename_i hst
      have haddr : st * 65536 + c.1 % 65536 = c.1 := by omega
      simp [decodeRecords, mkRecord, List.cons_append, haddr, ih st htail]
    · rename_i hst
      have hela : c.1 / 65536 / 256 * 256 + c.1 / 65536 % 256 = c.1 / 65536 := by
        omega
      have haddr : c.1 / 65536 * 65536 + c.1 % 65536 = c.1 := by omega
      simp [decodeRecords, mkRecord, elaValue, List.cons_append, hela, haddr,
        ih _ htail]

/-- Flattened positioned payloads of all segments' chunks equal the
flattened positioned bytes of the segments. -/
theorem chunks_decode_eq (l : List Segment) :
    (((l.map (fun s => splitChunks s.vaddr s.data)).flatten).map
        (fun c => posBytes c.1 c.2)).flatten
      = (l.map (fun s => posBytes s.vaddr s.data)).flatten := by
  induction l with
  | nil => simp
  | cons s l ih =>
    simp only [List.map_cons, List.flatten_cons, List.map_append,
      List.flatten_append, ih, flatten_chunks]

/-- Under an address bound on the segments, every chunk address is below
the bound. -/
theorem chunksOf_addr_lt (segs : List Segment) (B : Nat)
    (h : ∀ s ∈ segs, s.vaddr + s.data.length ≤ B) :
    ∀ c ∈ chunksOf segs, c.1 < B := by
  intro c hc
  simp only [chunksOf, List.mem_flatten] at hc
  obtain ⟨m, hm, hcm⟩ := hc
  simp only [List.mem_map] at hm
  obtain ⟨s, hs, rfl⟩ := hm
  have hseg : s ∈ segs := List.mem_of_mem_filter hs
  have hb := chunk_start_bound s.vaddr s.data c hcm
  have hs32 := h s hseg
  omega

/-- C5: decoding the Hex Encoder's emitted output (reconstructing a
byte-addressed memory image from its data records, using
extended-linear-address records for the upper 16 address bits) reproduces
exactly the byte content of the selected loadable segments at their
original addresses, with no gaps inserted and no extra bytes. -/
theorem hex_round_trip (segs : List Segment)
    (h : ∀ s ∈ segs, s.vaddr + s.data.length ≤ 4294967296) :
    decodeRecords 0 (encode segs) =
      ((selectSegs segs).map (fun s => posBytes s.vaddr s.data)).flatten := by
  rw [encode, decode_emitAll _ 0 (chunksOf_addr_lt segs _ h), chunksOf]
  exact chunks_decode_eq _

/-- Witness for C5: a loadable two-byte segment near the end of the first
64KB page round-trips through the encoder and the reference decoder. -/
theorem hex_round_trip_witness :
    (∀ s ∈ [(⟨65530, [1, 2], true⟩ : Segment)],
      s.vaddr + s.data.length ≤ 4294967296) ∧
    decodeRecords 0 (encode [(⟨65530, [1, 2], true⟩ : Segment)]) =
      ((selectSegs [(⟨65530, [1, 2], true⟩ : Segment)]).map
        (fun s => posBytes s.vaddr s.data)).flatten :=
  ⟨by decide, hex_round_trip _ (by decide)⟩

/-! ## Extended-linear-address emission counting -/

/-- `emitAll` emits exactly one extended-linear-address record per change of
the upper-16-bits state along the chunk sequence. -/
theorem countEla_emitAll (cs : List (Nat × List Nat)) :
    ∀ st, countEla (emitAll st cs) = changes st (chunkUppers cs) := by
  induction cs with
  | nil => intro st; simp [emitAll, countEla, chunkUppers, changes]
  | cons c cs ih =>
    intro st
    simp only [emitAll, chunkUppers, List.map_cons, changes]
    split
    · rename_i hst
      have hrec := ih st
      simp only [countEla, chunkUppers] at hrec
      simp [countEla, List.filter_cons, mkRecord, hst]
      exact hrec
    · rename_i hst
      have hrec := ih (c.1 / 65536)
      simp only [countEla, chunkUppers] at hrec
      simp [countEla, List.filter_cons, mkRecord, if_neg hst]
      omega

/-- The encoder's extended-linear-address record count equals the number of
upper-16-bits changes along its chunk sequence, starting from 0. -/
theorem countEla_encode (segs : List Segment) :
    countEla (encode segs) = changes 0 (chunkUppers (chunksOf segs)) := by
  have h1 := countEla_emitAll (chunksOf segs) 0
  have h2 : countEla [eofRecord] = 0 := rfl
  simp only [countEla] at h1 h2
  simp only [encode, countEla, List.filter_append, List.length_append, h1, h2,
    Nat.add_zero]

/-- A sequence of values all equal to the current state records no change. -/
theorem changes_eq_zero (l : List Nat) (u : Nat) (h : ∀ x ∈ l, x = u) :
    changes u l = 0 := by
  induction l with
  | nil => rfl
  | cons x xs ih =>
    have hx : x = u := h x (List.mem_cons_self _ _)
    have htail := ih (fun y hy => h y (List.mem_cons_of_mem _ hy))
    simp [changes, hx, htail]

/-- A non-empty constant sequence differing from the current state records
exactly one change. -/
theorem changes_const_one (l : List Nat) (u v : Nat) (h : ∀ x ∈ l, x = v)
    (hne : v ≠ u) (hl : l ≠ []) : changes u l = 1 := by
  cases l with
  | nil => exact absurd rfl hl
  | cons x xs =>
    have hx : x = v := h x (List.mem_cons_self _ _)
    have hxu : ¬ x = u := by omega
    have hxs : ∀ y ∈ xs, y = x := fun y hy => by
      rw [h y (List.mem_cons_of_mem _ hy), hx]
    simp only [changes, if_neg hxu, changes_eq_zero xs x hxs]

/-- A chunk-aligned segment starting below 64KB whose payload crosses
exactly one 64KB boundary produces exactly one upper-16-bits change. -/
theorem changes_splitChunks_cross :
    ∀ a bs, a % chunkSize = 0 → a < 65536 → 65536 < a + List.length bs →
      a + List.length bs ≤ 131072 →
      changes 0 (chunkUppers (splitChunks a bs)) = 1 := by
  intro a bs
  induction a, bs using splitChunks.induct with
  | case1 a =>
    intro _ h2 h3 _
    exfalso
    simp only [List.length_nil] at h3
    omega
  | case2 a bs hbs ih =>
    intro h1 h2 h3 h4
    have hdl : (bs.drop chunkSize).length = bs.length - chunkSize :=
      List.length_drop _ _
    rw [splitChunks_cons a bs hbs]
    simp only [chunkUppers, List.map_cons, changes] at ih ⊢
    simp only [chunkSize] at h1 ih hdl ⊢
    have ha0 : a / 65536 = 0 := Nat.div_eq_of_lt h2
    simp [ha0]
    by_cases hmid : a + 16 < 65536
    · have hlen : 16 < bs.length := by omega
      exact ih (by omega) (by omega) (by omega) (by omega)
    · have heq : a + 16 = 65536 := by omega
      have hlen : 16 < bs.length := by omega
      have hdne : bs.drop 16 ≠ [] := by
        intro h0
        rw [h0] at hdl
        simp only [List.length_nil] at hdl
        omega
      refine changes_const_one _ 0 1 ?_ (by omega) ?_
      · intro x hx
        simp only [List.mem_map] at hx
        obtain ⟨c, hc, rfl⟩ := hx
        have hb := chunk_start_bound _ _ c hc
        simp only [chunkSize] at hb
        omega
      · have hccons := splitChunks_cons (a + 16) (bs.drop 16) hdne
        simp only [chunkSize] at hccons
        rw [hccons]
        simp

/-- C7: an extended-linear-address record is emitted exactly when the upper
16 bits of the next data record's absolute address differ from the current
upper-16-bits state (the count of 0x04 records equals the count of
upper-16-bits changes from the initial state 0); a chunk-aligned loadable
segment whose payload spans one 64KB boundary triggers exactly one such
record at the crossing; and an input whose segments lie entirely below 64KB
never triggers one. -/
theorem ela_emission :
    (∀ segs : List Segment,
      countEla (encode segs) = changes 0 (chunkUppers (chunksOf segs))) ∧
    (∀ s : Segment, s.load = true → s.vaddr % chunkSize = 0 → s.vaddr < 65536 →
      65536 < s.vaddr + s.data.length → s.vaddr + s.data.length ≤ 131072 →
      countEla (encode [s]) = 1) ∧
    (∀ segs : List Segment, (∀ s ∈ segs, s.vaddr + s.data.length ≤ 65536) →
      countEla (encode segs) = 0) := by
  refine ⟨countEla_encode, ?_, ?_⟩
  · intro s hload halign hlo hcross hhi
    have hne : s.data ≠ [] := by
      intro h0
      rw [h0] at hcross
      simp only [List.length_nil] at hcross
      omega
    have hsel : selectSegs [s] = [s] := by
      cases hd : s.data with
      | nil => exact absurd hd hne
      | cons b bs => simp [selectSegs, hload, hd]
    rw [countEla_encode]
    simp only [chunksOf, hsel, List.map_cons, List.map_nil, List.flatten_cons,
      List.flatten_nil, List.append_nil]
    exact changes_splitChunks_cross s.vaddr s.data halign hlo hcross hhi
  · intro segs h
    rw [countEla_encode]
    apply changes_eq_zero
    intro x hx
    simp only [chunkUppers, List.mem_map] at hx
    obtain ⟨c, hc, rfl⟩ := hx
    have := chunksOf_addr_lt segs 65536 h c hc
    omega

/-- Witness for C7: a 32-byte loadable segment starting at `0xFFF0` crosses
the first 64KB boundary and the encoding contains exactly one
extended-linear-address record. -/
theorem ela_emission_witness :
    countEla (encode [(⟨65520, List.replicate 32 7, true⟩ : Segment)]) = 1 :=
  ela_emission.2.1 _ rfl (by decide) (by decide) (by decide) (by decide)

/-! ## Inspector error behaviour -/

/-- C4: an ELF Image lacking a designated data-boundary symbol makes
`retrieve_infos` fail with `MissingSymbol`, never returning a (defaulted)
result. -/
theorem missing_symbol_hard_error (img : ElfImage)
    (h : lookupSym img.symtab dataStartSymbol = none ∨
         lookupSym img.symtab dataEndSymbol = none) :
    (retrieve_infos img = .error (.MissingSymbol dataStartSymbol) ∨
     retrieve_infos img = .error (.MissingSymbol dataEndSymbol)) ∧
    (retrieve_infos img).isOk = false := by
  rcases h with h | h
  · constructor
    · left
      simp [retrieve_infos, h]
    · simp [retrieve_infos, h, Except.isOk, Except.toBool]
  · cases hs : lookupSym img.symtab dataStartSymbol with
    | none =>
      constructor
      · left
        simp [retrieve_infos, hs]
      · simp [retrieve_infos, hs, Except.isOk, Except.toBool]
    | some s =>
      constructor
      · right
        simp [retrieve_infos, hs, h]
      · simp [retrieve_infos, hs, h, Except.isOk, Except.toBool]

/-- Witness for C4: an image with an empty symbol table fails with
`MissingSymbol` and yields no result. -/
theorem missing_symbol_hard_error_witness :
    (retrieve_infos ⟨0, [], [], []⟩ = .error (.MissingSymbol dataStartSymbol) ∨
     retrieve_infos ⟨0, [], [], []⟩ = .error (.MissingSymbol dataEndSymbol)) ∧
    (retrieve_infos ⟨0, [], [], []⟩).isOk = false :=
  missing_symbol_hard_error _ (Or.inl rfl)

/-! ## `build_app` manifest claims -/

/-- Destructuring a successful `build_app` run: the result is the manifest
record built from the resolved hex directory, the stripped hex path and the
retrieved infos. -/
theorem build_app_some (device : Device) (exe_path : List String)
    (hex_next_to_json : Bool) (current_dir : List String) (meta : NanosMetadata)
    (pkgName pkgVersion : String) (retrieve : List String → Except ParseError Infos)
    (res : BuildResult)
    (h : build_app device exe_path hex_next_to_json current_dir meta pkgName
      pkgVersion retrieve = some res) :
    ∃ hexDir hex_file infos,
      (if hex_next_to_json then some current_dir else parent? exe_path) = some hexDir ∧
      stripPrefix? current_dir (hexDir ++ ["app.hex"]) = some hex_file ∧
      retrieve exe_path = .ok infos ∧
      res.export_elf_arg = exe_path ∧
      res.export_hex_arg = hexDir ++ ["app.hex"] ∧
      res.retrieve_arg = exe_path ∧
      res.manifest.binary = hex_file ∧
      res.manifest.dataSize = infos.size ∧
      res.manifest.apiLevel =
        (match device with
          | .Nanos => none
          | _ => some (toString infos.api_level)) ∧
      res.manifest.flags =
        (match device with
          | .Nanos | .Nanosplus => meta.flags
          | .Nanox => "0x" ++ toHexLower (((parseHexU32 meta.flags).getD 0) ||| 512)) ∧
      res.manifest.targetId =
        (match device with
          | .Nanos => "0x31100004"
          | .Nanox => "0x33000004"
          | .Nanosplus => "0x33100004") ∧
      res.manifest.icon =
        (match device with
          | .Nanos => meta.icon
          | .Nanox => meta.icon_small
          | .Nanosplus => meta.icon_small) := by
  unfold build_app at h
  simp only [Option.bind_eq_some, Option.map_eq_some'] at h
  obtain ⟨hexDir, hdir, hex_file, hstrip, infos, hinf, rfl⟩ := h
  have hok : retrieve exe_path = .ok infos := by
    cases hr : retrieve exe_path <;> rw [hr] at hinf <;>
      simp [Except.toOption] at hinf
    rw [hinf]
  refine ⟨hexDir, hex_file, infos, hdir, hstrip, hok, ?_⟩
  cases device <;> simp [mkManifest]

/-- Counterexample to C1 as stated: a successful `build_app` run for Nano S
whose Inspector reports `api_level = 3` writes a manifest with `dataSize`
but with no `apiLevel` field at all. -/
theorem manifest_fields_counterexample :
    (build_app .Nanos ["r", "b", "exe"] false ["r"]
        ⟨[], [], "f", "i", "is", some "n"⟩ "p" "1"
        (fun _ => .ok ⟨7, 3⟩)).map
      (fun r => (r.manifest.dataSize, r.manifest.apiLevel)) = some (7, none) ∧
    (none : Option String) ≠ some (toString (3 : Nat)) :=
  ⟨rfl, by simp⟩

/-- C1 (amended): for every device and every successful run of `build_app`,
the manifest carries `dataSize` equal to the size returned by
`retrieve_infos` and `binary` equal to the encoded image's output path
relative to the manifest's directory; `apiLevel` equals the rendering of
the `api_level` returned by `retrieve_infos` when the device is not Nano S,
and is omitted for Nano S. -/
theorem manifest_transcoder_fields (device : Device) (exe_path : List String)
    (hex_next_to_json : Bool) (current_dir : List String) (meta : NanosMetadata)
    (pkgName pkgVersion : String) (retrieve : List String → Except ParseError Infos)
    (res : BuildResult) (infos : Infos)
    (h : build_app device exe_path hex_next_to_json current_dir meta pkgName
      pkgVersion retrieve = some res)
    (hinf : retrieve exe_path = .ok infos) :
    res.manifest.dataSize = infos.size ∧
    stripPrefix? current_dir res.export_hex_arg = some res.manifest.binary ∧
    (device = .Nanos → res.manifest.apiLevel = none) ∧
    (device ≠ .Nanos → res.manifest.apiLevel = some (toString infos.api_level)) := by
  obtain ⟨hexDir, hex_file, infos', hdir, hstrip, hok, helf, hhex, hret, hbin,
    hsize, hapi, hflags, htid, hicon⟩ := build_app_some _ _ _ _ _ _ _ _ _ h
  have heq : infos' = infos := by
    rw [hok] at hinf
    exact Except.ok.inj hinf
  subst heq
  refine ⟨hsize, ?_, ?_, ?_⟩
  · rw [hhex, hbin]
    exact hstrip
  · intro hdev
    subst hdev
    simpa using hapi
  · intro hdev
    cases device with
    | Nanos => exact absurd rfl hdev
    | Nanox => simpa using hapi
    | Nanosplus => simpa using hapi

/-- Witness for C1 (amended): a concrete successful Nano X run. -/
theorem manifest_transcoder_fields_witness :
    (7 : Nat) = 7 ∧
    stripPrefix? ["r"] ["r", "b", "app.hex"] = some ["b", "app.hex"] ∧
    (Device.Nanox = Device.Nanos → (some "3" : Option String) = none) ∧
    (Device.Nanox ≠ Device.Nanos →
      (some "3" : Option String) = some (toString (3 : Nat))) :=
  manifest_transcoder_fields .Nanox ["r", "b", "exe"] false ["r"]
    ⟨[], [], "f", "i", "is", some "n"⟩ "p" "1" (fun _ => .ok ⟨7, 3⟩) _ _ rfl rfl

/-- C6: in `build_app`, the ELF executable path passed to the Encoder
(`export_binary`) is the same path subsequently passed to the Inspector
(`retrieve_infos`), and both results — the encoded image's path and the
`{size, api_level}` record — feed the manifest. -/
theorem orchestrator_same_path (device : Device) (exe_path : List String)
    (hex_next_to_json : Bool) (current_dir : List String) (meta : NanosMetadata)
    (pkgName pkgVersion : String) (retrieve : List String → Except ParseError Infos)
    (res : BuildResult) (infos : Infos)
    (h : build_app device exe_path hex_next_to_json current_dir meta pkgName
      pkgVersion retrieve = some res)
    (hinf : retrieve exe_path = .ok infos) :
    res.export_elf_arg = exe_path ∧
    res.retrieve_arg = exe_path ∧
    res.export_elf_arg = res.retrieve_arg ∧
    stripPrefix? current_dir res.export_hex_arg = some res.manifest.binary ∧
    res.manifest.dataSize = infos.size ∧
    (device ≠ .Nanos → res.manifest.apiLevel = some (toString infos.api_level)) := by
  obtain ⟨hexDir, hex_file, infos', hdir, hstrip, hok, helf, hhex, hret, hbin,
    hsize, hapi, hflags, htid, hicon⟩ := build_app_some _ _ _ _ _ _ _ _ _ h
  have heq : infos' = infos := by
    rw [hok] at hinf
    exact Except.ok.inj hinf
  subst heq
  refine ⟨helf, hret, by rw [helf, hret], ?_, hsize, ?_⟩
  · rw [hhex, hbin]
    exact hstrip
  · intro hdev
    cases device with
    | Nanos => exact absurd rfl hdev
    | Nanox => simpa using hapi
    | Nanosplus => simpa using hapi

/-- Witness for C6: a concrete successful Nano S Plus run. -/
theorem orchestrator_same_path_witness :
    (["r", "b", "exe"] : List String) = ["r", "b", "exe"] ∧
    (["r", "b", "exe"] : List String) = ["r", "b", "exe"] ∧
    (["r", "b", "exe"] : List String) = ["r", "b", "exe"] ∧
    stripPrefix? ["r"] ["r", "b", "app.hex"] = some ["b", "app.hex"] ∧
    (7 : Nat) = 7 ∧
    (Device.Nanosplus ≠ Device.Nanos →
      (some "3" : Option String) = some (toString (3 : Nat))) :=
  orchestrator_same_path .Nanosplus ["r", "b", "exe"] false ["r"]
    ⟨[], [], "f", "i", "is", some "n"⟩ "p" "1" (fun _ => .ok ⟨7, 3⟩) _ _ rfl rfl

/-- C9: `build_app` leaves the manifest `flags` field equal to the metadata
flags string for Nano S and Nano S Plus; for Nano X it sets `flags` to the
`0x`-prefixed lowercase hexadecimal rendering of the bitwise OR of 0x200
with the base-16 parse of the string (0 when the parse fails), so the
produced value always has bit 0x200 set. -/
theorem flags_by_device (device : Device) (exe_path : List String)
    (hex_next_to_json : Bool) (current_dir : List String) (meta : NanosMetadata)
    (pkgName pkgVersion : String) (retrieve : List String → Except ParseError Infos)
    (res : BuildResult)
    (h : build_app device exe_path hex_next_to_json current_dir meta pkgName
      pkgVersion retrieve = some res) :
    ((device = .Nanos ∨ device = .Nanosplus) → res.manifest.flags = meta.flags) ∧
    (device = .Nanox →
      res.manifest.flags =
        "0x" ++ toHexLower (((parseHexU32 meta.flags).getD 0) ||| 512) ∧
      Nat.testBit (((parseHexU32 meta.flags).getD 0) ||| 512) 9 = true) := by
  obtain ⟨hexDir, hex_file, infos', hdir, hstrip, hok, helf, hhex, hret, hbin,
    hsize, hapi, hflags, htid, hicon⟩ := build_app_some _ _ _ _ _ _ _ _ _ h
  constructor
  · rintro (rfl | rfl) <;> simpa using hflags
  · rintro rfl
    refine ⟨by simpa using hflags, ?_⟩
    have h512 : Nat.testBit 512 9 = true := by decide
    simp [Nat.testBit_lor, h512]

/-- Witness for C9: a concrete successful Nano X run with an unparsable
flags string. -/
theorem flags_by_device_witness :
    ((Device.Nanox = Device.Nanos ∨ Device.Nanox = Device.Nanosplus) →
      ("0x" ++ toHexLower (((parseHexU32 "f").getD 0) ||| 512) : String) = "f") ∧
    (Device.Nanox = Device.Nanox →
      ("0x" ++ toHexLower (((parseHexU32 "f").getD 0) ||| 512) : String) =
        "0x" ++ toHexLower (((parseHexU32 "f").getD 0) ||| 512) ∧
      Nat.testBit (((parseHexU32 "f").getD 0) ||| 512) 9 = true) :=
  flags_by_device .Nanox ["r", "b", "exe"] false ["r"]
    ⟨[], [], "f", "i", "is", some "n"⟩ "p" "1" (fun _ => .ok ⟨7, 3⟩) _ rfl

/-- C10: the manifest's `targetId` and icon are determined solely by the
device: Nano S yields `0x31100004` with the regular icon, Nano X yields
`0x33000004` with the small icon, Nano S Plus yields `0x33100004` with the
small icon. -/
theorem targetid_icon_by_device (device : Device) (exe_path : List String)
    (hex_next_to_json : Bool) (current_dir : List String) (meta : NanosMetadata)
    (pkgName pkgVersion : String) (retrieve : List String → Except ParseError Infos)
    (res : BuildResult)
    (h : build_app device exe_path hex_next_to_json current_dir meta pkgName
      pkgVersion retrieve = some res) :
    (device = .Nanos →
      res.manifest.targetId = "0x31100004" ∧ res.manifest.icon = meta.icon) ∧
    (device = .Nanox →
      res.manifest.targetId = "0x33000004" ∧ res.manifest.icon = meta.icon_small) ∧
    (device = .Nanosplus →
      res.manifest.targetId = "0x33100004" ∧ res.manifest.icon = meta.icon_small) := by
  obtain ⟨hexDir, hex_file, infos', hdir, hstrip, hok, helf, hhex, hret, hbin,
    hsize, hapi, hflags, htid, hicon⟩ := build_app_some _ _ _ _ _ _ _ _ _ h
  refine ⟨?_, ?_, ?_⟩ <;> rintro rfl <;>
    exact ⟨by simpa using htid, by simpa using hicon⟩

/-- Witness for C10: a concrete successful Nano S run. -/
theorem targetid_icon_by_device_witness :
    (Device.Nanos = Device.Nanos →
      ("0x31100004" : String) = "0x31100004" ∧ ("i" : String) = "i") ∧
    (Device.Nanos = Device.Nanox →
      ("0x31100004" : String) = "0x33000004" ∧ ("i" : String) = "is") ∧
    (Device.Nanos = Device.Nanosplus →
      ("0x31100004" : String) = "0x33100004" ∧ ("i" : String) = "is") :=
  targetid_icon_by_device .Nanos ["r", "b", "exe"] false ["r"]
    ⟨[], [], "f", "i", "is", some "n"⟩ "p" "1" (fun _ => .ok ⟨7, 3⟩) _ rfl

end CargoLedger
